import Mathlib

/-!
Verification of the `space-it-tools` asset pipeline (Aseprite sheet converter and
binary asset packer). Names follow the Rust source: `sid_aseprite_converter/src/sid_aseprite.rs`
and `sid_asset_packer/src/{asset,resource,sid}.rs`. Strings are modelled as `List Char`,
machine integers as `Nat`/`Int` with explicit `% 2 ^ w` where wrapping matters
(release-mode Rust semantics; debug builds panic instead of wrapping), and the external
Identifier Service (`sid_lib`) as function parameters. Filesystem effects are modelled by
returning the data that would be written.
-/

/-! ### Animation-tag extraction (`from_aseprite_frame_name_to_animation_name`) -/

/-- Mirrors the scanning loop of `from_aseprite_frame_name_to_animation_name`:
walk the characters with their indices, record `start_index := i + 1` at every
occurrence of a left parenthesis, and stop at the first right parenthesis,
recording `end_index := i`. -/
def tagScanAux : List Char → Nat → Option Nat → Option Nat × Option Nat
  | [], _, start => (start, none)
  | c :: rest, i, start =>
    if c = '(' then tagScanAux rest (i + 1) (some (i + 1))
    else if c = ')' then (start, some i)
    else tagScanAux rest (i + 1) start

theorem tagScanAux_nil (i : Nat) (acc : Option Nat) : tagScanAux [] i acc = (acc, none) := rfl

theorem tagScanAux_cons (c : Char) (rest : List Char) (i : Nat) (acc : Option Nat) :
    tagScanAux (c :: rest) i acc =
      if c = '(' then tagScanAux rest (i + 1) (some (i + 1))
      else if c = ')' then (acc, some i)
      else tagScanAux rest (i + 1) acc := rfl

/-- Model of Rust `str::trim` on a character list (whitespace stripped from both ends). -/
def trimChars (l : List Char) : List Char :=
  ((l.dropWhile Char.isWhitespace).reverse.dropWhile Char.isWhitespace).reverse

/-- Embedding of `from_aseprite_frame_name_to_animation_name`: scan the name, and when
both indices were recorded return the slice `frame_name[start..end]` trimmed. -/
def from_aseprite_frame_name_to_animation_name (frameName : List Char) : Option (List Char) :=
  match tagScanAux frameName 0 none with
  | (some s, some e) => some (trimChars ((frameName.drop s).take (e - s)))
  | _ => none

/-- Written from the claim wording for C2: the substring strictly between the first
left parenthesis and the next right parenthesis after it, trimmed; `none` when no
such matching pair exists. Used only to compare against the code's behaviour. -/
def specTagFirstParen (cs : List Char) : Option (List Char) :=
  if '(' ∈ cs then
    let after := (cs.dropWhile (fun c => c ≠ '(')).tail
    if ')' ∈ after then some (trimChars (after.takeWhile (fun c => c ≠ ')'))) else none
  else none

/-- The characters following the last left parenthesis of a list, or `none` when the
list has no left parenthesis. Spec-side helper used to state what the code computes. -/
def afterLastParen : List Char → Option (List Char)
  | [] => none
  | c :: rest =>
    match afterLastParen rest with
    | some t => some t
    | none => if c = '(' then some rest else none

/-- Amended description of the tag extraction: the substring strictly between the
last left parenthesis preceding the first right parenthesis and that right
parenthesis, trimmed; `none` if there is no right parenthesis or no left
parenthesis before it. -/
def specTagLastParenBeforeClose (cs : List Char) : Option (List Char) :=
  if ')' ∈ cs then (afterLastParen (cs.takeWhile (fun c => c ≠ ')'))).map trimChars else none

/-- Start index recorded by the scan after consuming `pre` (no right parenthesis in
`pre`), starting from index `i` with accumulator `acc`. -/
def lastOpenStart (pre : List Char) (i : Nat) (acc : Option Nat) : Option Nat :=
  match afterLastParen pre with
  | some t => some (i + pre.length - t.length)
  | none => acc

/-! ### Data model (converter structures from `sid_aseprite.rs`, asset structures from
`asset.rs`). Rust `i16`/`i32` fields are modelled as `Int`, `u16`/`u32` fields as `Nat`,
`String`/`OsString` as `List Char`, and `PathBuf` as `RustPath`. -/

/-- Model of a Rust `PathBuf`: an absolute flag plus the path components. -/
structure RustPath where
  absolute : Bool
  components : List (List Char)
  deriving DecidableEq

structure AsepriteSize where
  w : Int
  h : Int
  deriving DecidableEq

def AsepriteSize.new : AsepriteSize := ⟨0, 0⟩

structure AsepriteRect where
  x : Int
  y : Int
  w : Int
  h : Int
  deriving DecidableEq

def AsepriteRect.new : AsepriteRect := ⟨0, 0, 0, 0⟩

structure AsepriteFrameData where
  frame : AsepriteRect
  rotated : Bool
  trimmed : Bool
  spriteSourceSize : AsepriteRect
  sourceSize : AsepriteSize
  duration : Int
  deriving DecidableEq

def AsepriteFrameData.new : AsepriteFrameData :=
  ⟨AsepriteRect.new, false, false, AsepriteRect.new, AsepriteSize.new, 0⟩

/-- `AsepriteFrameTag`; the Rust fields `from`/`to` are Lean keywords and are named
`fromIdx`/`toIdx` here. -/
structure AsepriteFrameTag where
  name : List Char
  fromIdx : Int
  toIdx : Int
  direction : List Char
  color : List Char
  deriving DecidableEq

structure AsepriteFrameLayer where
  name : List Char
  opacity : Int
  blendMode : List Char
  deriving DecidableEq

structure AsepriteMeta where
  app : List Char
  version : List Char
  image : RustPath
  format : List Char
  size : AsepriteSize
  scale : List Char
  frameTags : List AsepriteFrameTag
  layers : List AsepriteFrameLayer
  slices : List Unit
  deriving DecidableEq

def AsepriteMeta.new : AsepriteMeta :=
  ⟨[], [], ⟨false, []⟩, [], AsepriteSize.new, [], [], [], []⟩

structure AsepriteFrameTuple where
  name : List Char
  data : AsepriteFrameData
  deriving DecidableEq

structure AsepriteSheet where
  frames : List AsepriteFrameTuple
  meta : AsepriteMeta
  deriving DecidableEq

def AsepriteSheet.new : AsepriteSheet := ⟨[], AsepriteMeta.new⟩

structure SidSpriteSheetAsset where
  name : List Char
  image_path : RustPath
  image_from_path : RustPath
  width : Nat
  height : Nat
  format : List Char
  deriving DecidableEq

structure SidAnimationFramePos where
  x : Nat
  y : Nat
  deriving DecidableEq

def SidAnimationFramePos.with_coords (x y : Nat) : SidAnimationFramePos := ⟨x, y⟩

structure SidAnimationFrameDims where
  width : Nat
  height : Nat
  deriving DecidableEq

def SidAnimationFrameDims.with_width_and_height (width height : Nat) : SidAnimationFrameDims :=
  ⟨width, height⟩

structure SidAnimationFrameAsset where
  pos : SidAnimationFramePos
  dims : SidAnimationFrameDims
  duration : Nat
  deriving DecidableEq

def SidAnimationFrameAsset.new : SidAnimationFrameAsset := ⟨⟨0, 0⟩, ⟨0, 0⟩, 0⟩

def SidAnimationFrameAsset.with_data (pos : SidAnimationFramePos) (dim : SidAnimationFrameDims)
    (duration : Nat) : SidAnimationFrameAsset :=
  ⟨pos, dim, duration⟩

structure SidAnimationDefAsset where
  frame_count : Nat
  frames : List SidAnimationFrameAsset
  name : List Char
  sheet_name : List Char
  deriving DecidableEq

structure SidAnimationAsset where
  offset : Nat
  length : Nat
  name : List Char
  def_name : List Char
  deriving DecidableEq

/-! ### Animation-definition derivation
(`SidAnimationDefAsset::from_aseprite_frame_tuples_and_sid_sprite_sheet`) -/

/-- Rust `TryInto<u16>` on an integer: succeeds exactly when the value fits in an
unsigned 16-bit integer. -/
def tryIntoU16 (v : Int) : Option Nat :=
  if 0 ≤ v ∧ v < 65536 then some v.toNat else none

/-- The conversion performed for one tuple inside the loop of
`from_aseprite_frame_tuples_and_sid_sprite_sheet` (x, y, width, height, duration in the
source order, failing on the first value that does not fit). -/
def convertFrameTuple (t : AsepriteFrameTuple) : Option SidAnimationFrameAsset := do
  let x ← tryIntoU16 t.data.frame.x
  let y ← tryIntoU16 t.data.frame.y
  let pos := SidAnimationFramePos.with_coords x y
  let width ← tryIntoU16 t.data.frame.w
  let height ← tryIntoU16 t.data.frame.h
  let dim := SidAnimationFrameDims.with_width_and_height width height
  let duration ← tryIntoU16 t.data.duration
  some (SidAnimationFrameAsset.with_data pos dim duration)

/-- Embedding of `SidAnimationDefAsset::from_aseprite_frame_tuples_and_sid_sprite_sheet`.
`max_frame_count` is the `u16` constant from the external Identifier Service. The
frame count is `min(len, max_frame_count) as u16`, but the source loop converts and
pushes *every* input tuple into the frame list. -/
def from_aseprite_frame_tuples_and_sid_sprite_sheet (max_frame_count : Nat)
    (aseprite_tuples : List AsepriteFrameTuple) (sheet : SidSpriteSheetAsset) :
    Option SidAnimationDefAsset :=
  let frame_count := (min aseprite_tuples.length max_frame_count) % 65536
  match aseprite_tuples.mapM convertFrameTuple with
  | none => none
  | some frames => some ⟨frame_count, frames, sheet.name, sheet.name⟩

/-! ### Frame-to-animation grouping (`from_aseprite_sheet_to_sid_animations`) -/

def tagOfTuple (t : AsepriteFrameTuple) : Option (List Char) :=
  from_aseprite_frame_name_to_animation_name t.name

/-- The `{definitionName}_{tag}` animation name built by the grouping loop. -/
def animName (defName tag : List Char) : List Char := defName ++ '_' :: tag

/-- Wrapping 16-bit subtraction, modelling release-mode `u16` arithmetic (debug builds
panic on underflow instead). -/
def u16wrapSub (a b : Nat) : Nat := (a % 65536 + 65536 - b % 65536) % 65536

/-- The loop of `from_aseprite_sheet_to_sid_animations` over the remaining frames,
with current index `i`, current run start `offset` (a `u16`) and previous tag `last`;
`L` is the total frame count used by the final flush. Returns the animation assets
written and whether the loop aborted early (`true`) before the final flush. -/
def animAux (defName : List Char) (L : Nat) :
    List AsepriteFrameTuple → Nat → Nat → List Char → List SidAnimationAsset × Bool
  | [], _, offset, last =>
    ([⟨offset, u16wrapSub L offset, animName defName last, defName⟩], false)
  | t :: rest, i, offset, last =>
    if 65535 < i then ([], true)
    else
      match tagOfTuple t with
      | none => ([], true)
      | some anim =>
        if i = 0 then animAux defName L rest (i + 1) offset anim
        else if anim = last then animAux defName L rest (i + 1) offset last
        else
          (⟨offset, u16wrapSub i offset, animName defName last, defName⟩ ::
              (animAux defName L rest (i + 1) (i % 65536) anim).1,
            (animAux defName L rest (i + 1) (i % 65536) anim).2)

/-- Embedding of `from_aseprite_sheet_to_sid_animations` for `def.name = defName` and
`sheet.frames = frames`: the empty sheet returns no assets without running the loop;
otherwise the loop runs from index 0 with `offset = 0` and an empty previous tag. -/
def from_aseprite_sheet_to_sid_animations (defName : List Char)
    (frames : List AsepriteFrameTuple) : List SidAnimationAsset × Bool :=
  if frames.length = 0 then ([], false)
  else animAux defName frames.length frames 0 0 []

/-- Spec-side description of the grouping walk (from the spec wording): from index `i`
with the current run starting at `runStart` and carrying tag `cur`, close the run
`[runStart, i)` whenever the tag changes, and close the final run `[runStart, L)` after
the loop. -/
def specGroupRun (defName : List Char) (L : Nat) :
    Nat → Nat → List Char → List (List Char) → List SidAnimationAsset
  | _, runStart, cur, [] => [⟨runStart, L - runStart, animName defName cur, defName⟩]
  | i, runStart, cur, t :: ts =>
    if t = cur then specGroupRun defName L (i + 1) runStart cur ts
    else
      ⟨runStart, i - runStart, animName defName cur, defName⟩ ::
        specGroupRun defName L (i + 1) i t ts

/-- Spec-side grouping of a whole tag list: no frames yield no assets; otherwise the
walk starts at index 1 with the first tag opening the run at 0. -/
def specGroupTags (defName : List Char) (L : Nat) : List (List Char) → List SidAnimationAsset
  | [] => []
  | t :: ts => specGroupRun defName L 1 0 t ts

/-- Spec-side closed runs only (for the amended C3): the assets of runs closed strictly
before the point where grouping aborts; the still-open run is never flushed. -/
def specClosedRuns (defName : List Char) :
    Nat → Nat → List Char → List (List Char) → List SidAnimationAsset
  | _, _, _, [] => []
  | i, runStart, cur, t :: ts =>
    if t = cur then specClosedRuns defName (i + 1) runStart cur ts
    else
      ⟨runStart, i - runStart, animName defName cur, defName⟩ ::
        specClosedRuns defName (i + 1) i t ts

def specClosedTags (defName : List Char) : List (List Char) → List SidAnimationAsset
  | [] => []
  | t :: ts => specClosedRuns defName 1 0 t ts

/-! ### Binary resource serialization (`SidAnimationDefAsset::write_resource` in
`resource.rs`). The byte stream written to the output file is modelled as a `List Nat`
of byte values; `to_le_bytes` becomes explicit little-endian byte splitting. -/

def u16le (v : Nat) : List Nat := [v % 256, v / 256 % 256]

def u32le (v : Nat) : List Nat :=
  [v % 256, v / 256 % 256, v / 65536 % 256, v / 16777216 % 256]

/-- Bytes written for one frame record: x, y, width, height, duration, each `u16` LE. -/
def frameRecordBytes (f : SidAnimationFrameAsset) : List Nat :=
  u16le f.pos.x ++ u16le f.pos.y ++ u16le f.dims.width ++ u16le f.dims.height ++
    u16le f.duration

/-- Embedding of `SidAnimationDefAsset::write_resource`: identifier, owning sheet
identifier, stored frame count, then one record per element of the stored frame list.
The Identifier Service hash functions are passed as parameters. -/
def SidAnimationDefAsset.write_resource
    (generate_animation_def_id generate_sprite_sheet_id : List Char → Nat)
    (a : SidAnimationDefAsset) : List Nat :=
  u32le (generate_animation_def_id a.name) ++ u32le (generate_sprite_sheet_id a.sheet_name) ++
    u16le a.frame_count ++ a.frames.flatMap frameRecordBytes

/-- The layout claimed in C4: identifier, owning sheet identifier, frame count, then
exactly `frame_count` frame records and nothing after. -/
def specAnimationDefLayout (generate_animation_def_id generate_sprite_sheet_id : List Char → Nat)
    (a : SidAnimationDefAsset) : List Nat :=
  u32le (generate_animation_def_id a.name) ++ u32le (generate_sprite_sheet_id a.sheet_name) ++
    u16le a.frame_count ++ (a.frames.take a.frame_count).flatMap frameRecordBytes

/-! ### Sprite-sheet derivation (`SidSpriteSheetAsset::from_aseprite_sheet`).
`std::fs::canonicalize` is an external filesystem effect and is passed as a parameter;
the OS-string conversion of the file stem is always representable in this model. -/

/-- Rust `Path::join`: an absolute right operand replaces the path, otherwise the
components are appended. -/
def RustPath.join (p q : RustPath) : RustPath :=
  if q.absolute then q else ⟨p.absolute, p.components ++ q.components⟩

/-- Rust `Path::file_stem` on a single file name: the whole name when it has no dot or
when its only dot is the leading character, otherwise the portion before the last dot. -/
def file_stem_of_name (n : List Char) : List Char :=
  match n.reverse.dropWhile (fun c => c ≠ '.') with
  | [] => n
  | _ :: stemRev => if stemRev.isEmpty then n else stemRev.reverse

def RustPath.file_stem (p : RustPath) : Option (List Char) :=
  p.components.getLast?.map file_stem_of_name

/-- The image-path resolution of `SidSpriteSheetAsset::from_aseprite_sheet`: an
absolute metadata image path is used verbatim, otherwise it is joined onto the
canonicalized containing folder. -/
def resolveImagePath (canonicalize : RustPath → Option RustPath)
    (containing_folder image : RustPath) : Option RustPath :=
  if image.absolute then some image
  else (canonicalize containing_folder).map (fun p => p.join image)

/-- Embedding of `SidSpriteSheetAsset::from_aseprite_sheet`: reject non-positive
dimensions, resolve the image path, and name the asset after the resolved path's file
stem; `image_path` keeps the raw metadata image reference and `image_from_path` the
resolved path, as in `with_data`'s call site. -/
def SidSpriteSheetAsset.from_aseprite_sheet (canonicalize : RustPath → Option RustPath)
    (containing_folder : RustPath) (sheet : AsepriteSheet) : Option SidSpriteSheetAsset :=
  if sheet.meta.size.w ≤ 0 ∨ sheet.meta.size.h ≤ 0 then none
  else
    (resolveImagePath canonicalize containing_folder sheet.meta.image).bind fun path =>
      (RustPath.file_stem path).map fun name =>
        ⟨name, sheet.meta.image, path, sheet.meta.size.w.toNat, sheet.meta.size.h.toNat,
          sheet.meta.format⟩

/-! ### Stage-one driver (`from_aseprite_sheets_to_sid_assets`). Directory iteration
and file reading are modelled by a list of entries, each carrying its extension and the
parse outcome of its contents; the output collects every asset written. -/

inductive AsepriteSheetError where
  | malformed
  | ioError
  deriving DecidableEq

inductive SidWrittenAsset where
  | sheetAsset (s : SidSpriteSheetAsset)
  | defAsset (d : SidAnimationDefAsset)
  | animAsset (a : SidAnimationAsset)
  deriving DecidableEq

inductive SheetDirEntry where
  | errEntry
  | fileEntry (extension : Option (List Char))
      (parsed : Except AsepriteSheetError AsepriteSheet)

/-- Processing of one directory entry by the stage-one driver: errors and non-`json`
files are skipped; otherwise derive the sprite sheet (skip on failure), write it,
derive the animation definition (skip on failure), write it, then write the grouped
animation assets. -/
def processSheetEntry (canonicalize : RustPath → Option RustPath) (max_frame_count : Nat)
    (sheets_input_path : RustPath) : SheetDirEntry → List SidWrittenAsset
  | .errEntry => []
  | .fileEntry ext parsed =>
    match ext with
    | none => []
    | some e =>
      if e ≠ "json".toList then []
      else
        match parsed with
        | .error _ => []
        | .ok sheet =>
          match SidSpriteSheetAsset.from_aseprite_sheet canonicalize sheets_input_path sheet with
          | none => []
          | some sid_asset =>
            SidWrittenAsset.sheetAsset sid_asset ::
              match from_aseprite_frame_tuples_and_sid_sprite_sheet max_frame_count
                  sheet.frames sid_asset with
              | none => []
              | some d =>
                SidWrittenAsset.defAsset d ::
                  (from_aseprite_sheet_to_sid_animations d.name sheet.frames).1.map
                    SidWrittenAsset.animAsset

/-- Embedding of the directory loop of `from_aseprite_sheets_to_sid_assets`. -/
def from_aseprite_sheets_to_sid_assets (canonicalize : RustPath → Option RustPath)
    (max_frame_count : Nat) (sheets_input_path : RustPath)
    (entries : List SheetDirEntry) : List SidWrittenAsset :=
  entries.flatMap (processSheetEntry canonicalize max_frame_count sheets_input_path)

/-! ### Sheet parsing (`AsepriteSheet::from_json`). File reading and text-level JSON
parsing are external; the model starts from the parsed `serde_json::Value`. JSON
numbers are modelled as integers (every consumed field is integer-typed), and serde's
derived deserializers are modelled field by field: required keys are looked up, type
and range are checked, unknown fields are ignored. -/

inductive Json where
  | null
  | bool (b : Bool)
  | num (n : Int)
  | str (s : List Char)
  | arr (elems : List Json)
  | obj (fields : List (List Char × Json))

def jLookup : List (List Char × Json) → List Char → Option Json
  | [], _ => none
  | (k, v) :: rest, key => if k = key then some v else jLookup rest key

def deserI16 : Json → Option Int
  | Json.num n => if -32768 ≤ n ∧ n ≤ 32767 then some n else none
  | _ => none

def deserI32 : Json → Option Int
  | Json.num n => if -2147483648 ≤ n ∧ n ≤ 2147483647 then some n else none
  | _ => none

def deserU8 : Json → Option Int
  | Json.num n => if 0 ≤ n ∧ n ≤ 255 then some n else none
  | _ => none

def deserBool : Json → Option Bool
  | Json.bool b => some b
  | _ => none

def deserString : Json → Option (List Char)
  | Json.str s => some s
  | _ => none

def splitSlashAux : List Char → List Char → List (List Char)
  | [], cur => [cur.reverse]
  | c :: rest, cur =>
    if c = '/' then cur.reverse :: splitSlashAux rest []
    else splitSlashAux rest (c :: cur)

/-- Model of deserializing a `PathBuf` from a JSON string (Unix path syntax). -/
def strToPath (s : List Char) : RustPath :=
  ⟨s.head? == some '/', (splitSlashAux s []).filter (fun comp => comp ≠ [])⟩

def getI16 (fs : List (List Char × Json)) (key : List Char) : Option Int :=
  (jLookup fs key).bind deserI16

def deserSize : Json → Option AsepriteSize
  | Json.obj fs => do
    let w ← getI16 fs ("w".toList)
    let h ← getI16 fs ("h".toList)
    some ⟨w, h⟩
  | _ => none

def deserRect : Json → Option AsepriteRect
  | Json.obj fs => do
    let x ← getI16 fs ("x".toList)
    let y ← getI16 fs ("y".toList)
    let w ← getI16 fs ("w".toList)
    let h ← getI16 fs ("h".toList)
    some ⟨x, y, w, h⟩
  | _ => none

/-- serde-derived deserialization of `AsepriteFrameData` (camelCase keys, all fields
required, unknown keys ignored). -/
def deserFrameData : Json → Option AsepriteFrameData
  | Json.obj fs => do
    let frame ← (jLookup fs ("frame".toList)).bind deserRect
    let rotated ← (jLookup fs ("rotated".toList)).bind deserBool
    let trimmed ← (jLookup fs ("trimmed".toList)).bind deserBool
    let sss ← (jLookup fs ("spriteSourceSize".toList)).bind deserRect
    let ss ← (jLookup fs ("sourceSize".toList)).bind deserSize
    let duration ← (jLookup fs ("duration".toList)).bind deserI32
    some ⟨frame, rotated, trimmed, sss, ss, duration⟩
  | _ => none

def deserFrameTag : Json → Option AsepriteFrameTag
  | Json.obj fs => do
    let name ← (jLookup fs ("name".toList)).bind deserString
    let fromIdx ← (jLookup fs ("from".toList)).bind deserU8
    let toIdx ← (jLookup fs ("to".toList)).bind deserU8
    let direction ← (jLookup fs ("direction".toList)).bind deserString
    let color ← (jLookup fs ("color".toList)).bind deserString
    some ⟨name, fromIdx, toIdx, direction, color⟩
  | _ => none

def deserFrameLayer : Json → Option AsepriteFrameLayer
  | Json.obj fs => do
    let name ← (jLookup fs ("name".toList)).bind deserString
    let opacity ← (jLookup fs ("opacity".toList)).bind deserU8
    let blendMode ← (jLookup fs ("blendMode".toList)).bind deserString
    some ⟨name, opacity, blendMode⟩
  | _ => none

/-- `AsepriteFrameSlice` has no fields; serde accepts any map for it. -/
def deserFrameSlice : Json → Option Unit
  | Json.obj _ => some ()
  | _ => none

def deserArr {α : Type} (f : Json → Option α) : Json → Option (List α)
  | Json.arr xs => xs.mapM f
  | _ => none

def deserMeta : Json → Option AsepriteMeta
  | Json.obj fs => do
    let app ← (jLookup fs ("app".toList)).bind deserString
    let version ← (jLookup fs ("version".toList)).bind deserString
    let image ← (jLookup fs ("image".toList)).bind (fun v => (deserString v).map strToPath)
    let format ← (jLookup fs ("format".toList)).bind deserString
    let size ← (jLookup fs ("size".toList)).bind deserSize
    let scale ← (jLookup fs ("scale".toList)).bind deserString
    let frameTags ← (jLookup fs ("frameTags".toList)).bind (deserArr deserFrameTag)
    let layers ← (jLookup fs ("layers".toList)).bind (deserArr deserFrameLayer)
    let slices ← (jLookup fs ("slices".toList)).bind (deserArr deserFrameSlice)
    some ⟨app, version, image, format, size, scale, frameTags, layers, slices⟩
  | _ => none

def framesKey : List Char := "frames".toList

def metaKey : List Char := "meta".toList

/-- The inner loop of `from_json` over the entries of the `frames` object: each entry
is deserialized into a frame tuple (appended in order); the first failure aborts the
whole parse with a malformed-input error. -/
def pushFrames : List (List Char × Json) → List AsepriteFrameTuple →
    Except AsepriteSheetError (List AsepriteFrameTuple)
  | [], acc => Except.ok acc
  | (key, v) :: rest, acc =>
    match deserFrameData v with
    | some data => pushFrames rest (acc ++ [⟨key, data⟩])
    | none => Except.error AsepriteSheetError.malformed

/-- The loop of `from_json` over the top-level keys: a `frames` key with an object
value pushes its entries (a non-object value is silently skipped), `meta` is
deserialized (malformed-input error on failure), and any other key is ignored. -/
def fromJsonFields : List (List Char × Json) → AsepriteSheet →
    Except AsepriteSheetError AsepriteSheet
  | [], descr => Except.ok descr
  | (key, v) :: rest, descr =>
    if key = framesKey then
      match v with
      | Json.obj obj =>
        match pushFrames obj descr.frames with
        | Except.error e => Except.error e
        | Except.ok fs => fromJsonFields rest { descr with frames := fs }
      | _ => fromJsonFields rest descr
    else if key = metaKey then
      match deserMeta v with
      | some m => fromJsonFields rest { descr with meta := m }
      | none => Except.error AsepriteSheetError.malformed
    else fromJsonFields rest descr

/-- Embedding of `AsepriteSheet::from_json` from the parsed JSON value onward: a
non-object root is a malformed-input error, otherwise the top-level keys are folded
over a fresh sheet. -/
def AsepriteSheet.from_json (root : Json) : Except AsepriteSheetError AsepriteSheet :=
  match root with
  | Json.obj map => fromJsonFields map AsepriteSheet.new
  | _ => Except.error AsepriteSheetError.malformed

/-! ### Concrete inputs used by counterexamples and witnesses -/

def c4BadAsset : SidAnimationDefAsset :=
  ⟨1, [SidAnimationFrameAsset.new, SidAnimationFrameAsset.new], "n".toList, "s".toList⟩

def c4GoodAsset : SidAnimationDefAsset :=
  ⟨1, [SidAnimationFrameAsset.new], "n".toList, "s".toList⟩

def c8Canon : RustPath → Option RustPath := fun _ => some ⟨true, ["root".toList]⟩

def c8Sheet : AsepriteSheet :=
  ⟨[], { AsepriteMeta.new with image := ⟨false, ["img.png".toList]⟩, size := ⟨3, 4⟩ }⟩

def c8Asset : SidSpriteSheetAsset :=
  ⟨"img".toList, ⟨false, ["img.png".toList]⟩, ⟨true, ["root".toList, "img.png".toList]⟩,
    3, 4, []⟩

theorem afterLastParen_none_iff (l : List Char) : afterLastParen l = none ↔ '(' ∉ l := by
  induction l with
  | nil => simp [afterLastParen]
  | cons c rest ih =>
    simp only [afterLastParen, List.mem_cons]
    cases h : afterLastParen rest with
    | some t =>
      have hin : '(' ∈ rest := by
        by_contra hn
        rw [← ih] at hn
        rw [h] at hn
        exact Option.noConfusion hn
      simp [hin]
    | none =>
      have hrest : '(' ∉ rest := ih.mp h
      by_cases hc : c = '('
      · simp [hc]
      · rw [if_neg hc]
        constructor
        · intro _
          rintro (h1 | h1)
          · exact hc h1.symm
          · exact hrest h1
        · intro _
          rfl

theorem afterLastParen_struct (l t : List Char) (h : afterLastParen l = some t) :
    ∃ p, l = p ++ '(' :: t ∧ '(' ∉ t := by
  induction l with
  | nil => simp [afterLastParen] at h
  | cons c rest ih =>
    simp only [afterLastParen] at h
    cases hr : afterLastParen rest with
    | some t' =>
      rw [hr] at h
      obtain ⟨p, hp, hnp⟩ := ih (hr.trans h)
      exact ⟨c :: p, by simp [hp], hnp⟩
    | none =>
      rw [hr] at h
      by_cases hc : c = '('
      · rw [if_pos hc] at h
        injection h with h2
        subst h2
        exact ⟨[], by simp [hc], (afterLastParen_none_iff rest).mp hr⟩
      · simp [hc] at h

theorem afterLastParen_length (l t : List Char) (h : afterLastParen l = some t) :
    t.length < l.length := by
  obtain ⟨p, hp, -⟩ := afterLastParen_struct l t h
  subst hp
  simp [List.length_append]
  omega

theorem tagScanAux_no_close (l : List Char) :
    ∀ i acc, ')' ∉ l → (tagScanAux l i acc).2 = none := by
  induction l with
  | nil => intro i acc _; simp [tagScanAux_nil]
  | cons c rest ih =>
    intro i acc hno
    have hc : ¬(c = ')') := fun h => hno (by simp [h])
    have hr : ')' ∉ rest := fun h => hno (List.mem_cons_of_mem _ h)
    rw [tagScanAux_cons]
    by_cases h1 : c = '('
    · rw [if_pos h1]; exact ih _ _ hr
    · rw [if_neg h1, if_neg hc]; exact ih _ _ hr

theorem lastOpenStart_cons (c : Char) (pre : List Char) (i : Nat) (acc : Option Nat) :
    lastOpenStart (c :: pre) i acc =
      lastOpenStart pre (i + 1) (if c = '(' then some (i + 1) else acc) := by
  simp only [lastOpenStart, afterLastParen, List.length_cons]
  cases hal : afterLastParen pre with
  | some t =>
    simp only [Option.some.injEq]
    omega
  | none =>
    by_cases hc : c = '('
    · rw [if_pos hc, if_pos hc]
      simp only [Option.some.injEq]
      omega
    · rw [if_neg hc, if_neg hc]

theorem tagScanAux_split (pre suf : List Char) :
    ∀ i acc, ')' ∉ pre → tagScanAux (pre ++ ')' :: suf) i acc =
      (lastOpenStart pre i acc, some (i + pre.length)) := by
  induction pre with
  | nil =>
    intro i acc _
    rw [List.nil_append, tagScanAux_cons]
    simp [lastOpenStart, afterLastParen]
  | cons c pre' ih =>
    intro i acc hno
    have hc : ¬(c = ')') := fun h => hno (by simp [h])
    have hr : ')' ∉ pre' := fun h => hno (List.mem_cons_of_mem _ h)
    rw [List.cons_append, tagScanAux_cons, lastOpenStart_cons]
    by_cases h1 : c = '('
    · rw [if_pos h1, if_pos h1, ih _ _ hr]
      refine Prod.ext rfl ?_
      simp only [List.length_cons, Option.some.injEq]
      omega
    · rw [if_neg h1, if_neg h1, if_neg hc, ih _ _ hr]
      refine Prod.ext rfl ?_
      simp only [List.length_cons, Option.some.injEq]
      omega

theorem mem_takeWhile_sat {p : Char → Bool} (l : List Char) (c : Char)
    (h : c ∈ l.takeWhile p) : p c = true := by
  induction l with
  | nil => simp [List.takeWhile] at h
  | cons a rest ih =>
    by_cases hp : p a
    · rw [List.takeWhile_cons_of_pos hp] at h
      rcases List.mem_cons.mp h with h1 | h1
      · exact h1 ▸ hp
      · exact ih h1
    · rw [List.takeWhile_cons_of_neg hp] at h
      simp at h

theorem dropWhile_first_close (cs : List Char) (hmem : ')' ∈ cs) :
    ∃ suf, cs.dropWhile (fun c => c ≠ ')') = ')' :: suf := by
  induction cs with
  | nil => simp at hmem
  | cons c rest ih =>
    by_cases hc : c = ')'
    · subst hc
      exact ⟨rest, by rw [List.dropWhile_cons_of_neg (by simp)]⟩
    · have h : ')' ∈ rest := by
        rcases List.mem_cons.mp hmem with h | h
        · exact absurd h.symm hc
        · exact h
      obtain ⟨suf, hs⟩ := ih h
      refine ⟨suf, ?_⟩
      rw [List.dropWhile_cons_of_pos (by simp [hc])]
      exact hs

/-- C2 counterexample input. -/
def c2Input : List Char := "a(b(c)".toList

/-- C2: the claim says the tag lies between the *first* left parenthesis and the next
right parenthesis; on `"a(b(c)"` the code extracts `"c"` (from the *last* left
parenthesis before the close), while the claimed rule gives `"b(c"`. -/
theorem c2_counterexample_first_vs_last_paren :
    from_aseprite_frame_name_to_animation_name c2Input = some ("c".toList) ∧
      specTagFirstParen c2Input = some ("b(c".toList) ∧
      some ("c".toList) ≠ some ("b(c".toList) := by
  refine ⟨by decide, by decide, by decide⟩

/-- C2 (amended): for every frame name, the extracted tag is the substring strictly
between the last left parenthesis preceding the first right parenthesis and that
right parenthesis, trimmed of whitespace; extraction yields no tag when the name has
no right parenthesis or no left parenthesis before the first right parenthesis. -/
theorem c2_tag_is_last_paren_before_first_close (cs : List Char) :
    from_aseprite_frame_name_to_animation_name cs = specTagLastParenBeforeClose cs := by
  by_cases hmem : ')' ∈ cs
  · obtain ⟨suf, hs⟩ := dropWhile_first_close cs hmem
    have hsplit : cs.takeWhile (fun c => c ≠ ')') ++ ')' :: suf = cs := by
      rw [← hs]; exact List.takeWhile_append_dropWhile _ cs
    set pre := cs.takeWhile (fun c => c ≠ ')') with hpre
    have hnopre : ')' ∉ pre := by
      intro hin
      have := mem_takeWhile_sat (p := fun c => c ≠ ')') cs ')' hin
      simp at this
    have hscan : tagScanAux cs 0 none = (lastOpenStart pre 0 none, some (0 + pre.length)) := by
      rw [← hsplit]; exact tagScanAux_split pre suf 0 none hnopre
    rw [from_aseprite_frame_name_to_animation_name, hscan]
    rw [specTagLastParenBeforeClose, if_pos hmem, ← hpre]
    cases hal : afterLastParen pre with
    | none => simp [lastOpenStart, hal]
    | some t =>
      obtain ⟨p, hp, -⟩ := afterLastParen_struct pre t hal
      have hlen : pre.length = p.length + 1 + t.length := by
        rw [hp]; simp [List.length_append]; omega
      simp only [lastOpenStart, hal, Option.map_some']
      have hs0 : 0 + pre.length - t.length = p.length + 1 := by omega
      rw [hs0]
      have he0 : 0 + pre.length - (p.length + 1) = t.length := by omega
      rw [he0]
      have hcs2 : cs = (p ++ ['(']) ++ (t ++ ')' :: suf) := by
        rw [← hsplit, hp]; simp
      have hdrop : cs.drop (p.length + 1) = t ++ ')' :: suf := by
        rw [hcs2]; exact List.drop_left' (by simp)
      rw [hdrop, List.take_left' rfl]
  · have h2 := tagScanAux_no_close cs 0 none hmem
    rw [from_aseprite_frame_name_to_animation_name]
    rw [specTagLastParenBeforeClose, if_neg hmem]
    rcases h : tagScanAux cs 0 none with ⟨f, s⟩
    rw [h] at h2
    simp only at h2
    subst h2
    cases f <;> rfl

/-! ### Grouping-loop lemmas -/

theorem animAux_nil (defName : List Char) (L i offset : Nat) (last : List Char) :
    animAux defName L [] i offset last =
      ([⟨offset, u16wrapSub L offset, animName defName last, defName⟩], false) := rfl

theorem animAux_cons_abort (defName : List Char) (L : Nat) (t : AsepriteFrameTuple)
    (rest : List AsepriteFrameTuple) (i offset : Nat) (last : List Char)
    (hi : 65535 < i) :
    animAux defName L (t :: rest) i offset last = ([], true) := by
  rw [animAux, if_pos hi]

theorem animAux_cons_none (defName : List Char) (L : Nat) (t : AsepriteFrameTuple)
    (rest : List AsepriteFrameTuple) (i offset : Nat) (last : List Char)
    (hi : ¬ 65535 < i) (ht : tagOfTuple t = none) :
    animAux defName L (t :: rest) i offset last = ([], true) := by
  rw [animAux, if_neg hi, ht]

theorem animAux_cons_some (defName : List Char) (L : Nat) (t : AsepriteFrameTuple)
    (rest : List AsepriteFrameTuple) (i offset : Nat) (last anim : List Char)
    (hi : ¬ 65535 < i) (ht : tagOfTuple t = some anim) :
    animAux defName L (t :: rest) i offset last =
      if i = 0 then animAux defName L rest (i + 1) offset anim
      else if anim = last then animAux defName L rest (i + 1) offset last
      else
        (⟨offset, u16wrapSub i offset, animName defName last, defName⟩ ::
            (animAux defName L rest (i + 1) (i % 65536) anim).1,
          (animAux defName L rest (i + 1) (i % 65536) anim).2) := by
  rw [animAux, if_neg hi, ht]

theorem u16wrapSub_eq (a b : Nat) (hb : b ≤ a) (ha : a ≤ 65535) : u16wrapSub a b = a - b := by
  unfold u16wrapSub
  have h1 : a % 65536 = a := Nat.mod_eq_of_lt (by omega)
  have h2 : b % 65536 = b := Nat.mod_eq_of_lt (by omega)
  rw [h1, h2]
  omega

theorem specGroupRun_nil (defName : List Char) (L i runStart : Nat) (cur : List Char) :
    specGroupRun defName L i runStart cur [] =
      [⟨runStart, L - runStart, animName defName cur, defName⟩] := rfl

theorem specGroupRun_cons (defName : List Char) (L i runStart : Nat) (cur t : List Char)
    (ts : List (List Char)) :
    specGroupRun defName L i runStart cur (t :: ts) =
      if t = cur then specGroupRun defName L (i + 1) runStart cur ts
      else
        ⟨runStart, i - runStart, animName defName cur, defName⟩ ::
          specGroupRun defName L (i + 1) i t ts := rfl

theorem specClosedRuns_cons (defName : List Char) (i runStart : Nat) (cur t : List Char)
    (ts : List (List Char)) :
    specClosedRuns defName i runStart cur (t :: ts) =
      if t = cur then specClosedRuns defName (i + 1) runStart cur ts
      else
        ⟨runStart, i - runStart, animName defName cur, defName⟩ ::
          specClosedRuns defName (i + 1) i t ts := rfl

theorem animAux_spec (defName : List Char) (L : Nat) (rest : List AsepriteFrameTuple) :
    ∀ (ts : List (List Char)) (i offset : Nat) (last : List Char),
      rest.map tagOfTuple = ts.map some →
      i + rest.length = L → L ≤ 65535 → offset ≤ i → 1 ≤ i →
      animAux defName L rest i offset last = (specGroupRun defName L i offset last ts, false) := by
  induction rest with
  | nil =>
    intro ts i offset last hmap hlen hL hoff hi
    have hts : ts = [] := by simpa using hmap.symm
    subst hts
    rw [animAux_nil, specGroupRun_nil]
    simp only [List.length_nil] at hlen
    rw [u16wrapSub_eq L offset (by omega) hL]
  | cons r rest2 ih =>
    intro ts i offset last hmap hlen hL hoff hi
    cases ts with
    | nil => simp at hmap
    | cons t ts2 =>
      simp only [List.map_cons] at hmap
      injection hmap with h1 h2
      simp only [List.length_cons] at hlen
      have hiL : i ≤ 65535 := by omega
      rw [animAux_cons_some defName L r rest2 i offset last t (by omega) h1]
      rw [if_neg (by omega : ¬ i = 0)]
      rw [specGroupRun_cons]
      by_cases heq : t = last
      · rw [if_pos heq, if_pos heq]
        subst heq
        exact ih ts2 (i + 1) offset t h2 (by omega) hL (by omega) (by omega)
      · rw [if_neg heq, if_neg heq]
        have hmod : i % 65536 = i := Nat.mod_eq_of_lt (by omega)
        rw [hmod]
        rw [ih ts2 (i + 1) i t h2 (by omega) hL (by omega) (by omega)]
        rw [u16wrapSub_eq i offset hoff hiL]

theorem animAux_abort_spec (defName : List Char) (L : Nat) (c : AsepriteFrameTuple)
    (post : List AsepriteFrameTuple) (hc : tagOfTuple c = none)
    (rest : List AsepriteFrameTuple) :
    ∀ (ts : List (List Char)) (i offset : Nat) (last : List Char),
      rest.map tagOfTuple = ts.map some →
      i + rest.length ≤ 65535 → offset ≤ i → 1 ≤ i →
      animAux defName L (rest ++ c :: post) i offset last =
        (specClosedRuns defName i offset last ts, true) := by
  induction rest with
  | nil =>
    intro ts i offset last hmap hlen hoff hi
    have hts : ts = [] := by simpa using hmap.symm
    subst hts
    simp only [List.length_nil] at hlen
    rw [List.nil_append]
    rw [animAux_cons_none defName L c post i offset last (by omega) hc]
    rfl
  | cons r rest2 ih =>
    intro ts i offset last hmap hlen hoff hi
    cases ts with
    | nil => simp at hmap
    | cons t ts2 =>
      simp only [List.map_cons] at hmap
      injection hmap with h1 h2
      simp only [List.length_cons] at hlen
      have hiL : i ≤ 65535 := by omega
      rw [List.cons_append]
      rw [animAux_cons_some defName L r (rest2 ++ c :: post) i offset last t (by omega) h1]
      rw [if_neg (by omega : ¬ i = 0)]
      rw [specClosedRuns_cons]
      by_cases heq : t = last
      · rw [if_pos heq, if_pos heq]
        subst heq
        exact ih ts2 (i + 1) offset t h2 (by omega) (by omega) (by omega)
      · rw [if_neg heq, if_neg heq]
        have hmod : i % 65536 = i := Nat.mod_eq_of_lt (by omega)
        rw [hmod]
        rw [ih ts2 (i + 1) i t h2 (by omega) (by omega) (by omega)]
        rw [u16wrapSub_eq i offset hoff hiL]

theorem animAux_same_tag (defName : List Char) (L : Nat) (fr : AsepriteFrameTuple)
    (tag : List Char) (h : tagOfTuple fr = some tag) :
    ∀ (k i offset : Nat), i + k = L → L ≤ 65536 → 1 ≤ i →
      animAux defName L (List.replicate k fr) i offset tag =
        ([⟨offset, u16wrapSub L offset, animName defName tag, defName⟩], false) := by
  intro k
  induction k with
  | zero =>
    intro i offset _ _ _
    rw [List.replicate_zero, animAux_nil]
  | succ k2 ih =>
    intro i offset hlen hL hi
    rw [List.replicate_succ]
    rw [animAux_cons_some defName L fr (List.replicate k2 fr) i offset tag tag
      (by omega) h]
    rw [if_neg (by omega : ¬ i = 0), if_pos rfl]
    exact ih (i + 1) offset (by omega) hL (by omega)

/-- C5: for every fully-tagged frame list of length at most 65535, the grouping loop
produces exactly the assets described by the spec's walk: runs of consecutive equal
tags, each closed as `[runStart, i)` named `{definitionName}_{tag}` when the tag
changes, with the final run closed after the loop; no abort occurs. -/
theorem c5_grouping_runs (defName : List Char) (frames : List AsepriteFrameTuple)
    (ts : List (List Char)) (hmap : frames.map tagOfTuple = ts.map some)
    (hlen : frames.length ≤ 65535) :
    from_aseprite_sheet_to_sid_animations defName frames =
      (specGroupTags defName frames.length ts, false) := by
  cases frames with
  | nil =>
    have hts : ts = [] := by simpa using hmap.symm
    subst hts
    rfl
  | cons f rest =>
    cases ts with
    | nil => simp at hmap
    | cons t ts2 =>
      simp only [List.map_cons] at hmap
      injection hmap with h1 h2
      rw [from_aseprite_sheet_to_sid_animations]
      rw [if_neg (by simp : ¬ (f :: rest).length = 0)]
      rw [animAux_cons_some defName (f :: rest).length f rest 0 0 [] t (by omega) h1]
      rw [if_pos rfl]
      simp only [List.length_cons] at hlen ⊢
      exact animAux_spec defName (rest.length + 1) rest ts2 1 0 t h2 (by omega) (by omega)
        (by omega) (by omega)

/-- C5 witness: the three frames `"walk (idle) 001"`, `"walk (idle) 002"`,
`"walk (run) 001"` group into exactly `walk_idle` spanning `[0, 2)` and `walk_run`
spanning `[2, 3)`. -/
theorem c5_grouping_witness :
    from_aseprite_sheet_to_sid_animations ("walk".toList)
        [⟨"walk (idle) 001".toList, AsepriteFrameData.new⟩,
          ⟨"walk (idle) 002".toList, AsepriteFrameData.new⟩,
          ⟨"walk (run) 001".toList, AsepriteFrameData.new⟩] =
      ([⟨0, 2, "walk_idle".toList, "walk".toList⟩,
        ⟨2, 1, "walk_run".toList, "walk".toList⟩], false) := by
  rw [c5_grouping_runs ("walk".toList)
    [⟨"walk (idle) 001".toList, AsepriteFrameData.new⟩,
      ⟨"walk (idle) 002".toList, AsepriteFrameData.new⟩,
      ⟨"walk (run) 001".toList, AsepriteFrameData.new⟩]
    ["idle".toList, "idle".toList, "run".toList] (by decide) (by decide)]
  decide

/-- C6: a sheet with exactly 65536 frames (strictly more than 65535) does *not* abort:
the loop guard `i > u16::MAX` never fires because indices stop at 65535, and the final
flush emits an animation asset whose 16-bit length `65536 as u16 - 0` wraps to 0. -/
theorem c6_no_abort_at_65536_frames :
    65535 < (List.replicate 65536 (⟨"f (x) 0".toList, AsepriteFrameData.new⟩ :
        AsepriteFrameTuple)).length ∧
    from_aseprite_sheet_to_sid_animations ("d".toList)
        (List.replicate 65536 ⟨"f (x) 0".toList, AsepriteFrameData.new⟩) =
      ([⟨0, 0, "d_x".toList, "d".toList⟩], false) := by
  constructor
  · rw [List.length_replicate]
    omega
  · rw [from_aseprite_sheet_to_sid_animations, List.length_replicate]
    rw [if_neg (by omega : ¬ (65536 : Nat) = 0)]
    rw [show (List.replicate 65536 (⟨"f (x) 0".toList, AsepriteFrameData.new⟩ :
        AsepriteFrameTuple)) =
      ⟨"f (x) 0".toList, AsepriteFrameData.new⟩ ::
        List.replicate 65535 ⟨"f (x) 0".toList, AsepriteFrameData.new⟩ from rfl]
    rw [animAux_cons_some ("d".toList) 65536 ⟨"f (x) 0".toList, AsepriteFrameData.new⟩
      (List.replicate 65535 ⟨"f (x) 0".toList, AsepriteFrameData.new⟩) 0 0 []
      ("x".toList) (by omega) (by decide)]
    rw [if_pos rfl]
    rw [animAux_same_tag ("d".toList) 65536 ⟨"f (x) 0".toList, AsepriteFrameData.new⟩
      ("x".toList) (by decide) 65535 1 0 (by omega) (by omega) (by omega)]
    decide

/-- C3 counterexample: a sheet whose third frame name has no parenthesized tag still
produces one animation asset (for the run closed at the earlier tag change) before the
grouping aborts, contradicting "produces zero animation assets for it". -/
theorem c3_counterexample_assets_before_abort :
    tagOfTuple ⟨"badframe".toList, AsepriteFrameData.new⟩ = none ∧
    from_aseprite_sheet_to_sid_animations ("d".toList)
        [⟨"w (a) 1".toList, AsepriteFrameData.new⟩,
          ⟨"w (b) 2".toList, AsepriteFrameData.new⟩,
          ⟨"badframe".toList, AsepriteFrameData.new⟩] =
      ([⟨0, 1, "d_a".toList, "d".toList⟩], true) ∧
    ([⟨0, 1, "d_a".toList, "d".toList⟩] : List SidAnimationAsset) ≠ [] := by
  refine ⟨by decide, by decide, by decide⟩

/-! ### Derivation and packing lemmas -/

theorem take4_u32le (v : Nat) (rest : List Nat) : (u32le v ++ rest).take 4 = u32le v :=
  List.take_left' rfl

theorem from_aseprite_frame_tuples_eq (m : Nat) (tuples : List AsepriteFrameTuple)
    (sheet : SidSpriteSheetAsset) :
    from_aseprite_frame_tuples_and_sid_sprite_sheet m tuples sheet =
      match tuples.mapM convertFrameTuple with
      | none => none
      | some frames =>
        some ⟨(min tuples.length m) % 65536, frames, sheet.name, sheet.name⟩ := rfl

theorem frameRecordBytes_length (f : SidAnimationFrameAsset) :
    (frameRecordBytes f).length = 10 := rfl

theorem flatMap_frameRecordBytes_length (fs : List SidAnimationFrameAsset) :
    (fs.flatMap frameRecordBytes).length = 10 * fs.length := by
  induction fs with
  | nil => rfl
  | cons f rest ih =>
    rw [List.flatMap_cons, List.length_append, ih, frameRecordBytes_length, List.length_cons]
    ring

/-- C1: with `max_frame_count = 1` and two convertible frames, the derived definition
has the capped `frame_count = 1` but its stored frame list still holds both input
frames: the source loop converts and pushes *every* tuple, so frames beyond the cap
are not dropped from the definition. -/
theorem c1_frames_not_truncated_at_cap :
    from_aseprite_frame_tuples_and_sid_sprite_sheet 1
        [⟨"a (x) 1".toList, AsepriteFrameData.new⟩, ⟨"a (x) 2".toList, AsepriteFrameData.new⟩]
        ⟨"s".toList, ⟨false, []⟩, ⟨false, []⟩, 1, 1, []⟩ =
      some ⟨1, [SidAnimationFrameAsset.new, SidAnimationFrameAsset.new],
        "s".toList, "s".toList⟩ ∧
    ([SidAnimationFrameAsset.new, SidAnimationFrameAsset.new] :
        List SidAnimationFrameAsset).length ≠ 1 := by
  refine ⟨by decide, by decide⟩

/-- C9: every successfully derived animation definition is named after its owning
sprite sheet (`name = sheet_name = sheet.name`), and its pack-time identifier bytes
(the first four bytes of the resource) are computed from that sheet name string. -/
theorem c9_def_name_equals_sheet_name (max_frame_count : Nat)
    (tuples : List AsepriteFrameTuple) (sheet : SidSpriteSheetAsset)
    (d : SidAnimationDefAsset) (g1 g2 : List Char → Nat)
    (h : from_aseprite_frame_tuples_and_sid_sprite_sheet max_frame_count tuples sheet =
      some d) :
    d.name = sheet.name ∧ d.sheet_name = sheet.name ∧
      (SidAnimationDefAsset.write_resource g1 g2 d).take 4 = u32le (g1 sheet.name) := by
  rw [from_aseprite_frame_tuples_eq] at h
  cases hm : tuples.mapM convertFrameTuple with
  | none =>
    rw [hm] at h
    simp at h
  | some frames =>
    rw [hm] at h
    have h2 := Option.some.inj h
    subst h2
    refine ⟨rfl, rfl, ?_⟩
    unfold SidAnimationDefAsset.write_resource
    rw [List.append_assoc, List.append_assoc]
    exact take4_u32le _ _

/-- C9 witness: a concrete derivation whose definition name, sheet name and identifier
bytes all come from the sheet's name. -/
theorem c9_witness :
    from_aseprite_frame_tuples_and_sid_sprite_sheet 16 []
        ⟨"s".toList, ⟨false, []⟩, ⟨false, []⟩, 1, 1, []⟩ =
      some ⟨0, [], "s".toList, "s".toList⟩ ∧
    ((⟨0, [], "s".toList, "s".toList⟩ : SidAnimationDefAsset).name = "s".toList ∧
      (⟨0, [], "s".toList, "s".toList⟩ : SidAnimationDefAsset).sheet_name = "s".toList ∧
      (SidAnimationDefAsset.write_resource (fun _ => 0) (fun _ => 7)
          ⟨0, [], "s".toList, "s".toList⟩).take 4 = u32le ((fun _ => (0 : Nat)) ("s".toList))) :=
  ⟨by decide, c9_def_name_equals_sheet_name 16 []
    ⟨"s".toList, ⟨false, []⟩, ⟨false, []⟩, 1, 1, []⟩
    ⟨0, [], "s".toList, "s".toList⟩ (fun _ => 0) (fun _ => 7) (by decide)⟩

/-- C4 counterexample: an animation-definition asset whose stored frame list is longer
than its `frame_count` field (as stage one produces when the cap is exceeded, see C1)
is packed with one record per stored frame: 30 bytes instead of the claimed
`10 + 10 * frame_count = 20`, so bytes do follow the frame-count repetitions. -/
theorem c4_counterexample_extra_frame_records :
    (SidAnimationDefAsset.write_resource (fun _ => 0) (fun _ => 0) c4BadAsset).length = 30 ∧
    4 + 4 + 2 + 10 * c4BadAsset.frame_count = 20 ∧
    SidAnimationDefAsset.write_resource (fun _ => 0) (fun _ => 0) c4BadAsset ≠
      specAnimationDefLayout (fun _ => 0) (fun _ => 0) c4BadAsset := by
  refine ⟨by decide, by decide, by decide⟩

/-- C4 (amended): the packed bytes are identifier, owning sheet identifier, frame
count, then one x/y/width/height/duration record per *stored* frame with no padding
and nothing after; this equals the claimed exactly-`frame_count`-records layout
whenever the stored list length matches the `frame_count` field, and the byte length
is then `10 + 10 * frame_count`. -/
theorem c4_layout_when_counts_match (g1 g2 : List Char → Nat) (a : SidAnimationDefAsset)
    (h : a.frames.length = a.frame_count) :
    SidAnimationDefAsset.write_resource g1 g2 a = specAnimationDefLayout g1 g2 a ∧
      (SidAnimationDefAsset.write_resource g1 g2 a).length = 10 + 10 * a.frame_count := by
  have htake : a.frames.take a.frame_count = a.frames := by
    rw [← h]
    exact List.take_length a.frames
  constructor
  · unfold SidAnimationDefAsset.write_resource specAnimationDefLayout
    rw [htake]
  · unfold SidAnimationDefAsset.write_resource
    have l1 : ∀ v, (u32le v).length = 4 := fun v => rfl
    have l2 : ∀ v, (u16le v).length = 2 := fun v => rfl
    simp only [List.length_append, l1, l2, flatMap_frameRecordBytes_length, h]

/-- C4 witness: a matched asset (one stored frame, `frame_count = 1`) is packed in the
claimed layout with 20 bytes. -/
theorem c4_layout_witness :
    c4GoodAsset.frames.length = c4GoodAsset.frame_count ∧
      (SidAnimationDefAsset.write_resource (fun _ => 0) (fun _ => 0) c4GoodAsset =
          specAnimationDefLayout (fun _ => 0) (fun _ => 0) c4GoodAsset ∧
        (SidAnimationDefAsset.write_resource (fun _ => 0) (fun _ => 0) c4GoodAsset).length =
          10 + 10 * c4GoodAsset.frame_count) :=
  ⟨by decide, c4_layout_when_counts_match (fun _ => 0) (fun _ => 0) c4GoodAsset (by decide)⟩

/-- C8: when sprite-sheet derivation succeeds, the asset's name is the file stem of the
resolved image path: the metadata image path itself when absolute, or that path joined
onto the canonicalized containing folder when relative. -/
theorem c8_name_is_resolved_stem (canonicalize : RustPath → Option RustPath)
    (containing_folder : RustPath) (sheet : AsepriteSheet) (a : SidSpriteSheetAsset)
    (h : SidSpriteSheetAsset.from_aseprite_sheet canonicalize containing_folder sheet =
      some a) :
    (sheet.meta.image.absolute = true →
      RustPath.file_stem sheet.meta.image = some a.name) ∧
    (sheet.meta.image.absolute = false →
      ∀ cf, canonicalize containing_folder = some cf →
        RustPath.file_stem (cf.join sheet.meta.image) = some a.name) := by
  unfold SidSpriteSheetAsset.from_aseprite_sheet at h
  by_cases hwh : sheet.meta.size.w ≤ 0 ∨ sheet.meta.size.h ≤ 0
  · rw [if_pos hwh] at h
    exact absurd h (by simp)
  · rw [if_neg hwh] at h
    constructor
    · intro habs
      have hres : resolveImagePath canonicalize containing_folder sheet.meta.image =
          some sheet.meta.image := by
        unfold resolveImagePath
        rw [if_pos habs]
      rw [hres, Option.some_bind] at h
      cases hst : RustPath.file_stem sheet.meta.image with
      | none => simp [hst] at h
      | some name =>
        rw [hst, Option.map_some', Option.some.injEq] at h
        subst h
        rfl
    · intro habs cf hcf
      have hres : resolveImagePath canonicalize containing_folder sheet.meta.image =
          some (cf.join sheet.meta.image) := by
        unfold resolveImagePath
        simp [habs, hcf]
      rw [hres, Option.some_bind] at h
      cases hst : RustPath.file_stem (cf.join sheet.meta.image) with
      | none => simp [hst] at h
      | some name =>
        rw [hst, Option.map_some', Option.some.injEq] at h
        subst h
        rfl

/-- C8 witness: a relative image path `img.png` resolved against a canonicalized
folder yields an asset named `img`, the stem of the resolved path. -/
theorem c8_name_witness :
    SidSpriteSheetAsset.from_aseprite_sheet c8Canon ⟨false, []⟩ c8Sheet = some c8Asset ∧
      (c8Sheet.meta.image.absolute = false ∧
        RustPath.file_stem (RustPath.join ⟨true, ["root".toList]⟩ c8Sheet.meta.image) =
          some c8Asset.name) := by
  have hmain := c8_name_is_resolved_stem c8Canon ⟨false, []⟩ c8Sheet c8Asset (by decide)
  exact ⟨by decide, by decide, hmain.2 (by decide) ⟨true, ["root".toList]⟩ (by decide)⟩

/-- C3 (amended): grouping aborts at the first frame whose name has no parenthesized
tag, but the animation assets of runs closed strictly before that frame have already
been written (zero exactly when no tag change precedes it); the batch driver processes
directory entries independently, so the other sheets of the batch are unaffected. -/
theorem c3_abort_at_first_malformed_frame (defName : List Char)
    (pre post : List AsepriteFrameTuple) (c : AsepriteFrameTuple) (ts : List (List Char))
    (hmap : pre.map tagOfTuple = ts.map some) (hc : tagOfTuple c = none)
    (hlen : pre.length ≤ 65535) :
    from_aseprite_sheet_to_sid_animations defName (pre ++ c :: post) =
      (specClosedTags defName ts, true) ∧
    ∀ (canonicalize : RustPath → Option RustPath) (max_frame_count : Nat)
      (folder : RustPath) (l1 l2 : List SheetDirEntry),
        from_aseprite_sheets_to_sid_assets canonicalize max_frame_count folder (l1 ++ l2) =
          from_aseprite_sheets_to_sid_assets canonicalize max_frame_count folder l1 ++
            from_aseprite_sheets_to_sid_assets canonicalize max_frame_count folder l2 := by
  constructor
  · cases pre with
    | nil =>
      have hts : ts = [] := by simpa using hmap.symm
      subst hts
      rw [List.nil_append, from_aseprite_sheet_to_sid_animations]
      rw [if_neg (by simp)]
      rw [animAux_cons_none defName (c :: post).length c post 0 0 [] (by omega) hc]
      rfl
    | cons p pre2 =>
      cases ts with
      | nil => simp at hmap
      | cons t ts2 =>
        simp only [List.map_cons] at hmap
        injection hmap with h1 h2
        rw [List.cons_append, from_aseprite_sheet_to_sid_animations]
        rw [if_neg (by simp)]
        rw [animAux_cons_some defName _ p (pre2 ++ c :: post) 0 0 [] t (by omega) h1]
        rw [if_pos rfl]
        simp only [List.length_cons] at hlen
        exact animAux_abort_spec defName _ c post hc pre2 ts2 1 0 t h2 (by omega)
          (by omega) (by omega)
  · intro canonicalize max_frame_count folder l1 l2
    unfold from_aseprite_sheets_to_sid_assets
    exact List.flatMap_append l1 l2 (processSheetEntry canonicalize max_frame_count folder)

/-- C3 witness: a sheet with frames tagged `a`, `b` and then a malformed name aborts
after writing exactly the closed `a`-run; batch processing splits over entries. -/
theorem c3_abort_witness :
    from_aseprite_sheet_to_sid_animations ("d".toList)
        ([⟨"w (a) 1".toList, AsepriteFrameData.new⟩,
            ⟨"w (b) 2".toList, AsepriteFrameData.new⟩] ++
          ⟨"badframe".toList, AsepriteFrameData.new⟩ :: []) =
      (specClosedTags ("d".toList) ["a".toList, "b".toList], true) ∧
    from_aseprite_sheets_to_sid_assets (fun _ => none) 16 ⟨false, []⟩
        ([SheetDirEntry.errEntry] ++ [SheetDirEntry.errEntry]) =
      from_aseprite_sheets_to_sid_assets (fun _ => none) 16 ⟨false, []⟩
          [SheetDirEntry.errEntry] ++
        from_aseprite_sheets_to_sid_assets (fun _ => none) 16 ⟨false, []⟩
          [SheetDirEntry.errEntry] := by
  have H := c3_abort_at_first_malformed_frame ("d".toList)
    [⟨"w (a) 1".toList, AsepriteFrameData.new⟩, ⟨"w (b) 2".toList, AsepriteFrameData.new⟩]
    [] ⟨"badframe".toList, AsepriteFrameData.new⟩ ["a".toList, "b".toList]
    (by decide) (by decide) (by decide)
  exact ⟨H.1, H.2 (fun _ => none) 16 ⟨false, []⟩ [SheetDirEntry.errEntry]
    [SheetDirEntry.errEntry]⟩

/-! ### Sheet-parsing lemmas -/

theorem pushFrames_cons (key : List Char) (v : Json) (rest : List (List Char × Json))
    (acc : List AsepriteFrameTuple) :
    pushFrames ((key, v) :: rest) acc =
      match deserFrameData v with
      | some data => pushFrames rest (acc ++ [⟨key, data⟩])
      | none => Except.error AsepriteSheetError.malformed := rfl

theorem fromJsonFields_cons (key : List Char) (v : Json) (rest : List (List Char × Json))
    (descr : AsepriteSheet) :
    fromJsonFields ((key, v) :: rest) descr =
      if key = framesKey then
        match v with
        | Json.obj obj =>
          match pushFrames obj descr.frames with
          | Except.error e => Except.error e
          | Except.ok fs => fromJsonFields rest { descr with frames := fs }
        | _ => fromJsonFields rest descr
      else if key = metaKey then
        match deserMeta v with
        | some m => fromJsonFields rest { descr with meta := m }
        | none => Except.error AsepriteSheetError.malformed
      else fromJsonFields rest descr := rfl

theorem fromJsonFields_cons_frames_obj (obj2 rest : List (List Char × Json))
    (descr : AsepriteSheet) :
    fromJsonFields ((framesKey, Json.obj obj2) :: rest) descr =
      match pushFrames obj2 descr.frames with
      | Except.error e => Except.error e
      | Except.ok fs => fromJsonFields rest { descr with frames := fs } := by
  rw [fromJsonFields_cons, if_pos rfl]

theorem fromJsonFields_cons_frames_nonobj (v : Json) (rest : List (List Char × Json))
    (descr : AsepriteSheet) (hv : ∀ fs2, v ≠ Json.obj fs2) :
    fromJsonFields ((framesKey, v) :: rest) descr = fromJsonFields rest descr := by
  rw [fromJsonFields_cons, if_pos rfl]
  cases v with
  | obj fs2 => exact absurd rfl (hv fs2)
  | null => rfl
  | bool b => rfl
  | num n => rfl
  | str s => rfl
  | arr xs => rfl

theorem fromJsonFields_cons_other (key : List Char) (v : Json)
    (rest : List (List Char × Json)) (descr : AsepriteSheet)
    (hk : ¬ key = framesKey) (hm : ¬ key = metaKey) :
    fromJsonFields ((key, v) :: rest) descr = fromJsonFields rest descr := by
  rw [fromJsonFields_cons, if_neg hk, if_neg hm]

theorem pushFrames_error (ffs : List (List Char × Json)) :
    ∀ (acc : List AsepriteFrameTuple) (kv : List Char × Json), kv ∈ ffs →
      deserFrameData kv.2 = none →
      pushFrames ffs acc = Except.error AsepriteSheetError.malformed := by
  induction ffs with
  | nil =>
    intro acc kv h
    simp at h
  | cons p rest ih =>
    obtain ⟨pk, pv⟩ := p
    intro acc kv hmem hbad
    rw [pushFrames_cons]
    rcases List.mem_cons.mp hmem with h | h
    · rw [h] at hbad
      rw [hbad]
    · cases hd : deserFrameData pv with
      | some data => exact ih _ kv h hbad
      | none => rfl

theorem pushFrames_error_only (ffs : List (List Char × Json)) :
    ∀ (acc : List AsepriteFrameTuple) (e : AsepriteSheetError),
      pushFrames ffs acc = Except.error e → e = AsepriteSheetError.malformed := by
  induction ffs with
  | nil =>
    intro acc e h
    exact absurd h (by simp [pushFrames])
  | cons p rest ih =>
    obtain ⟨pk, pv⟩ := p
    intro acc e h
    rw [pushFrames_cons] at h
    cases hd : deserFrameData pv with
    | some data =>
      rw [hd] at h
      exact ih _ e h
    | none =>
      rw [hd] at h
      injection h with h2
      exact h2.symm

theorem fromJsonFields_cons_meta (v : Json) (rest : List (List Char × Json))
    (descr : AsepriteSheet) :
    fromJsonFields ((metaKey, v) :: rest) descr =
      match deserMeta v with
      | some m => fromJsonFields rest { descr with meta := m }
      | none => Except.error AsepriteSheetError.malformed := by
  rw [fromJsonFields_cons, if_neg (by decide), if_pos rfl]

theorem fromJsonFields_head (pk : List Char) (pv : Json) (descr : AsepriteSheet) :
    (∀ rest, fromJsonFields ((pk, pv) :: rest) descr =
        Except.error AsepriteSheetError.malformed) ∨
    ∃ descr2, ∀ rest,
      fromJsonFields ((pk, pv) :: rest) descr = fromJsonFields rest descr2 := by
  by_cases hpk : pk = framesKey
  · subst hpk
    cases pv with
    | obj obj2 =>
      cases hpf : pushFrames obj2 descr.frames with
      | error e =>
        left
        intro rest
        rw [fromJsonFields_cons_frames_obj, hpf,
          pushFrames_error_only obj2 descr.frames e hpf]
      | ok fs =>
        right
        exact ⟨{ descr with frames := fs }, fun rest => by
          rw [fromJsonFields_cons_frames_obj, hpf]⟩
    | null =>
      right
      exact ⟨descr, fun rest =>
        fromJsonFields_cons_frames_nonobj _ _ _ (fun fs2 h2 => Json.noConfusion h2)⟩
    | bool b =>
      right
      exact ⟨descr, fun rest =>
        fromJsonFields_cons_frames_nonobj _ _ _ (fun fs2 h2 => Json.noConfusion h2)⟩
    | num n =>
      right
      exact ⟨descr, fun rest =>
        fromJsonFields_cons_frames_nonobj _ _ _ (fun fs2 h2 => Json.noConfusion h2)⟩
    | str s =>
      right
      exact ⟨descr, fun rest =>
        fromJsonFields_cons_frames_nonobj _ _ _ (fun fs2 h2 => Json.noConfusion h2)⟩
    | arr xs =>
      right
      exact ⟨descr, fun rest =>
        fromJsonFields_cons_frames_nonobj _ _ _ (fun fs2 h2 => Json.noConfusion h2)⟩
  · by_cases hmk : pk = metaKey
    · subst hmk
      cases hdm : deserMeta pv with
      | some m =>
        right
        exact ⟨{ descr with meta := m }, fun rest => by
          rw [fromJsonFields_cons_meta, hdm]⟩
      | none =>
        left
        intro rest
        rw [fromJsonFields_cons_meta, hdm]
    · right
      exact ⟨descr, fun rest => fromJsonFields_cons_other pk pv rest descr hpk hmk⟩

theorem fromJsonFields_error_of_bad_frame (fields : List (List Char × Json)) :
    ∀ (descr : AsepriteSheet) (ffs : List (List Char × Json)) (kv : List Char × Json),
      (framesKey, Json.obj ffs) ∈ fields → kv ∈ ffs → deserFrameData kv.2 = none →
      fromJsonFields fields descr = Except.error AsepriteSheetError.malformed := by
  induction fields with
  | nil =>
    intro descr ffs kv h
    simp at h
  | cons p rest ih =>
    obtain ⟨pk, pv⟩ := p
    intro descr ffs kv hmem hkv hbad
    rcases List.mem_cons.mp hmem with h | h
    · injection h with h1 h2
      subst h1
      subst h2
      rw [fromJsonFields_cons_frames_obj, pushFrames_error ffs descr.frames kv hkv hbad]
    · rcases fromJsonFields_head pk pv descr with herr | ⟨descr2, heq⟩
      · exact herr rest
      · rw [heq rest]
        exact ih descr2 ffs kv h hkv hbad

theorem fromJsonFields_ignore (l1 : List (List Char × Json)) (k : List Char) (v : Json)
    (hk1 : ¬ k = framesKey) (hk2 : ¬ k = metaKey) :
    ∀ (l2 : List (List Char × Json)) (descr : AsepriteSheet),
      fromJsonFields (l1 ++ (k, v) :: l2) descr = fromJsonFields (l1 ++ l2) descr := by
  induction l1 with
  | nil =>
    intro l2 descr
    rw [List.nil_append, List.nil_append, fromJsonFields_cons_other k v l2 descr hk1 hk2]
  | cons p rest ih =>
    obtain ⟨pk, pv⟩ := p
    intro l2 descr
    rw [List.cons_append, List.cons_append]
    rcases fromJsonFields_head pk pv descr with herr | ⟨descr2, heq⟩
    · rw [herr (rest ++ (k, v) :: l2), herr (rest ++ l2)]
    · rw [heq (rest ++ (k, v) :: l2), heq (rest ++ l2)]
      exact ih l2 descr2

/-- C7: any frame entry under an object-valued top-level `frames` key that fails to
deserialize makes the whole parse return a malformed-input error (no partial sheet);
any unrecognized top-level key is ignored without error; a JSON root that is not an
object is a malformed-input error. -/
theorem c7_parse_errors_and_ignored_keys :
    (∀ (fields ffs : List (List Char × Json)) (kv : List Char × Json),
        (framesKey, Json.obj ffs) ∈ fields → kv ∈ ffs → deserFrameData kv.2 = none →
        AsepriteSheet.from_json (Json.obj fields) =
          Except.error AsepriteSheetError.malformed) ∧
    (∀ (l1 l2 : List (List Char × Json)) (k : List Char) (v : Json),
        ¬ k = framesKey → ¬ k = metaKey →
        AsepriteSheet.from_json (Json.obj (l1 ++ (k, v) :: l2)) =
          AsepriteSheet.from_json (Json.obj (l1 ++ l2))) ∧
    (∀ j : Json, (∀ fields, ¬ j = Json.obj fields) →
        AsepriteSheet.from_json j = Except.error AsepriteSheetError.malformed) := by
  refine ⟨?_, ?_, ?_⟩
  · intro fields ffs kv hmem hkv hbad
    exact fromJsonFields_error_of_bad_frame fields AsepriteSheet.new ffs kv hmem hkv hbad
  · intro l1 l2 k v hk1 hk2
    exact fromJsonFields_ignore l1 k v hk1 hk2 l2 AsepriteSheet.new
  · intro j hj
    cases j with
    | obj fields => exact absurd rfl (hj fields)
    | null => rfl
    | bool b => rfl
    | num n => rfl
    | str s => rfl
    | arr xs => rfl

/-- C7 witness: a `frames` object with one null-valued entry makes the parse fail with
a malformed-input error; an unknown top-level key is dropped; a null root errors. -/
theorem c7_parse_witness :
    AsepriteSheet.from_json (Json.obj [(framesKey, Json.obj [("f1".toList, Json.null)])]) =
      Except.error AsepriteSheetError.malformed ∧
    AsepriteSheet.from_json (Json.obj ([] ++ ("zzz".toList, Json.null) :: [])) =
      AsepriteSheet.from_json (Json.obj ([] ++ [])) ∧
    AsepriteSheet.from_json Json.null = Except.error AsepriteSheetError.malformed := by
  have H := c7_parse_errors_and_ignored_keys
  refine ⟨?_, ?_, ?_⟩
  · exact H.1 [(framesKey, Json.obj [("f1".toList, Json.null)])]
      [("f1".toList, Json.null)] ("f1".toList, Json.null)
      (List.mem_singleton.mpr rfl) (List.mem_singleton.mpr rfl) rfl
  · exact H.2.1 [] [] ("zzz".toList) Json.null (by decide) (by decide)
  · exact H.2.2 Json.null (fun fields h => Json.noConfusion h)

/-- C10: a top-level `frames` key whose value is not a JSON object is silently
skipped, so parsing a sheet whose only key is such a `frames` succeeds with an empty
frame list and the default metadata. -/
theorem c10_nonobject_frames_ignored (v : Json) (rest : List (List Char × Json))
    (hv : ∀ fs, ¬ v = Json.obj fs) :
    AsepriteSheet.from_json (Json.obj ((framesKey, v) :: rest)) =
      AsepriteSheet.from_json (Json.obj rest) ∧
    AsepriteSheet.from_json (Json.obj [(framesKey, v)]) = Except.ok AsepriteSheet.new ∧
    AsepriteSheet.new.frames = [] := by
  refine ⟨?_, ?_, rfl⟩
  · exact fromJsonFields_cons_frames_nonobj v rest AsepriteSheet.new hv
  · exact fromJsonFields_cons_frames_nonobj v [] AsepriteSheet.new hv

/-- C10 witness: `frames` holding an (empty) array parses to the empty sheet. -/
theorem c10_witness :
    (∀ fs, ¬ Json.arr [] = Json.obj fs) ∧
    AsepriteSheet.from_json (Json.obj [(framesKey, Json.arr [])]) =
      Except.ok AsepriteSheet.new := by
  have hv : ∀ fs, ¬ Json.arr [] = Json.obj fs := fun fs h => Json.noConfusion h
  exact ⟨hv, (c10_nonobject_frames_ignored (Json.arr []) [] hv).2.1⟩
